import Mathlib

/-
Verification of the GC-to-EE coordination contract declared in
src/src/gc/gcinterface.ee.h (interface IGCToCLR).

The repository contains only the abstract interface (pure virtual
declarations plus their documentation comments); the host's implementation
of the contract is not part of the sources. The definitions below are
therefore shallow models of the protocol, built from the specification's
descriptions (the suspension state machine of spec section 4.1, the
root-scan protocol of section 4.2, the write-barrier installation protocol
of section 4.3, the lifecycle handoffs of section 4.4, and the
diagnostics/fatal-error rules of section 4.5) and from the contracts
documented in the header itself.
-/

namespace GCInterface

/-- Modelled from the spec: the write-barrier parameter record (spec
section 3, "Write-barrier parameters"): card-table base address,
card-table bounds, heap lower/upper bounds. The concrete
`WriteBarrierParameters` struct is not part of the sources; addresses are
modelled as naturals. -/
structure WriteBarrierParameters where
  card_table_base : Nat
  card_table_bounds : Nat
  heap_lower : Nat
  heap_upper : Nat
deriving DecidableEq, Repr

/-- Modelled from the spec: the observable protocol operations of the
IGCToCLR contract that the suspension state machine (spec section 4.1),
the write-barrier installation protocol (section 4.3) and fatal-error
escalation (section 4.5) constrain. `RefStore` records a mutator
reference-store together with the barrier parameters that store used. -/
inductive EEEvent where
  | SuspendEE (reason : Nat)
  | RestartEE (bFinishedGC : Bool)
  | GcScanRoots (condemned max_gen : Nat)
  | StompWriteBarrier (args : WriteBarrierParameters)
  | RefStore (used : WriteBarrierParameters)
  | HandleFatalError (exitCode : Nat)
deriving DecidableEq, Repr

/-- Modelled from the spec: the process-wide protocol state (spec
section 4.1 collapses `SuspendRequested`/`AllThreadsSafe` into the
completion of `SuspendEE`, which blocks until all threads are safe;
what is observable across operations is running vs suspended).
`alive` is false once fatal-error escalation has occurred; `barrier`
is the write-barrier parameter set currently installed in all
compiled code paths. -/
structure EEState where
  alive : Bool
  suspEE : Bool
  barrier : WriteBarrierParameters
deriving DecidableEq, Repr

/-- Modelled from the spec: the per-operation contract. A second
`SuspendEE` while suspended, a `RestartEE` while running, a root scan or
barrier stomp outside `Suspended`, a reference store while suspended or
with stale barrier parameters, and any operation after fatal-error
escalation are all outside the protocol and rejected (`none`). -/
def execEvent (s : EEState) : EEEvent → Option EEState
  | .SuspendEE _ =>
      if s.alive = true ∧ s.suspEE = false then
        some { s with suspEE := true }
      else none
  | .RestartEE _ =>
      if s.alive = true ∧ s.suspEE = true then
        some { s with suspEE := false }
      else none
  | .GcScanRoots _ _ =>
      if s.alive = true ∧ s.suspEE = true then some s else none
  | .StompWriteBarrier args =>
      if s.alive = true ∧ s.suspEE = true then
        some { s with barrier := args }
      else none
  | .RefStore used =>
      if s.alive = true ∧ s.suspEE = false ∧ used = s.barrier then
        some s
      else none
  | .HandleFatalError _ =>
      if s.alive = true then some { s with alive := false } else none

/-- Modelled from the spec: a protocol execution is a sequence of
operations each permitted in the state its predecessors produced. -/
def runEvents (s : EEState) : List EEEvent → Option EEState
  | [] => some s
  | e :: tr =>
      match execEvent s e with
      | some s2 => runEvents s2 tr
      | none => none

/-- Modelled from the spec: the initial write-barrier parameters installed
at process start. -/
def initBarrier : WriteBarrierParameters :=
  { card_table_base := 0, card_table_bounds := 0, heap_lower := 0, heap_upper := 0 }

/-- Modelled from the spec: the state at process start — running, not
suspended, initial barrier installed (spec section 9, "Global suspension
state": initialization at process start). -/
def initEEState : EEState :=
  { alive := true, suspEE := false, barrier := initBarrier }

/-- The subsequence of suspend/resume operations of a trace, `true` for
`SuspendEE` and `false` for `RestartEE`. -/
def suspendRestartTrace : List EEEvent → List Bool
  | [] => []
  | .SuspendEE _ :: tr => true :: suspendRestartTrace tr
  | .RestartEE _ :: tr => false :: suspendRestartTrace tr
  | _ :: tr => suspendRestartTrace tr

/-- Holds when the list is an initial segment of the strict alternation
`e, !e, e, !e, …`. -/
def alternates : Bool → List Bool → Bool
  | _, [] => true
  | e, b :: bs => (b == e) && alternates (!e) bs

/-- Number of `SuspendEE` operations in a trace. -/
def countSuspends : List EEEvent → Nat
  | [] => 0
  | .SuspendEE _ :: tr => countSuspends tr + 1
  | _ :: tr => countSuspends tr

/-- Number of `RestartEE` operations in a trace. -/
def countRestarts : List EEEvent → Nat
  | [] => 0
  | .RestartEE _ :: tr => countRestarts tr + 1
  | _ :: tr => countRestarts tr

/-- Modelled from the spec: roots are stack-resident or static references
(spec section 4.2: the host walks every mutator thread's stack plus
process-wide static references). -/
inductive RootKind where
  | stack
  | static
deriving DecidableEq, Repr

/-- Modelled from the spec: a GC root — a reference location together with
the generation of the object it holds and whether it is a stack or a
static root. The host's actual root tables are not part of the sources. -/
structure GCRoot where
  loc : Nat
  gen : Nat
  kind : RootKind
deriving DecidableEq, Repr

/-- Modelled from the spec: the host side of `GcScanRoots` (spec
section 4.2): given the condemned generation and the host's root set, the
host invokes the promotion callback on precisely the roots of
generation ≤ condemned (stack and static alike); the list returned is the
sequence of locations the callback is invoked on, in walk order. The
host's stack walker is not part of the sources. -/
def gcScanRootsVisited (condemned : Nat) (roots : List GCRoot) : List Nat :=
  (roots.filter (fun r => decide (r.gen ≤ condemned))).map GCRoot.loc

/-- Objects are modelled by opaque identities. -/
abbrev ObjRef := Nat

/-- One pinned entry of an `System.Threading.OverlappedData` wrapper, per
the contract documented at `IGCToCLR::WalkAsyncPinned`
(src/src/gc/gcinterface.ee.h, lines 236-253): the wrapper pins either a
single object directly, or an array whose elements are all pinned. -/
inductive PinnedEntry where
  | direct (target : ObjRef)
  | array (arr : ObjRef) (elems : List ObjRef)
deriving DecidableEq, Repr

/-- What the runtime knows about an object for the async-pinned walks:
either a plain object (not of the recognized wrapper kind) or an
`OverlappedData` wrapper with its pinned entries. -/
inductive ObjKind where
  | plain
  | overlappedData (pinned : List PinnedEntry)
deriving DecidableEq, Repr

/-- Modelled from the contract documented at `IGCToCLR::WalkAsyncPinned`
(src/src/gc/gcinterface.ee.h, lines 236-253); the host's implementation is
not part of the sources. Returns the list of (from, to) pairs the callback
is invoked on: for a directly pinned single object the "from" is the
wrapper itself; for a pinned array the callback is invoked on every
element, and the "from" object is the pinned array. A no-op on objects
that are not `OverlappedData`. -/
def WalkAsyncPinned (kindOf : ObjRef → ObjKind) (object : ObjRef) :
    List (ObjRef × ObjRef) :=
  match kindOf object with
  | .plain => []
  | .overlappedData entries =>
      entries.flatMap fun e =>
        match e with
        | .direct t => [(object, t)]
        | .array a elems => elems.map fun t => (a, t)

/-- Modelled from the contract documented at
`IGCToCLR::WalkAsyncPinnedForPromotion` (src/src/gc/gcinterface.ee.h,
lines 222-234): reports the pinned target objects to the collector's
promotion callback; a no-op on objects that are not `OverlappedData`. -/
def WalkAsyncPinnedForPromotion (kindOf : ObjRef → ObjKind) (object : ObjRef) :
    List ObjRef :=
  match kindOf object with
  | .plain => []
  | .overlappedData entries =>
      entries.flatMap fun e =>
        match e with
        | .direct t => [t]
        | .array _ elems => elems

/-- The concrete heap of the pinned-buffer scenario: object 0 is the
wrapper, pinning object 1 directly and the array object 2 whose elements
are objects 3, 4 and 5; every other object is plain. -/
def sampleKindOf : ObjRef → ObjKind := fun o =>
  if o = 0 then .overlappedData [.direct 1, .array 2 [3, 4, 5]] else .plain

/-- Modelled from the spec: the collector's finalization handoff (spec
section 4.4). For each finalizable object the collector calls
`EagerFinalized`; the objects for which the host answers true are
finalized eagerly on the current thread and the collector does not
enqueue them, the rest are enqueued for the finalizer thread
(src/src/gc/gcinterface.ee.h, lines 170-176). Returns
(eagerly finalized, enqueued). -/
def processFinalizables (eagerFinalized : ObjRef → Bool) (objs : List ObjRef) :
    List ObjRef × List ObjRef :=
  (objs.filter eagerFinalized, objs.filter (fun o => !eagerFinalized o))

/-- Modelled from the spec: the host's configuration backing store
(spec section 6, "get/set config value"); the host's implementation is not
part of the sources. Keys are strings; boolean, integer and string values
live in separate typed tables. -/
structure ConfigStore where
  bools : List (String × Bool)
  ints : List (String × Int)
  strs : List (String × String)

/-- Modelled from the contract documented at
`IGCToCLR::GetBooleanConfigValue` (src/src/gc/gcinterface.ee.h, lines
194-199): when the host has no value for the key, false is returned and
the out-parameter is undefined (modelled by returning the caller's
incoming garbage value `junk` unchanged); otherwise true is returned and
the key's value is written to the out-parameter. -/
def GetBooleanConfigValue (st : ConfigStore) (key : String) (junk : Bool) :
    Bool × Bool :=
  match st.bools.lookup key with
  | some v => (true, v)
  | none => (false, junk)

/-- Modelled from the contract documented at `IGCToCLR::GetIntConfigValue`
(src/src/gc/gcinterface.ee.h, lines 201-202), same convention as the
boolean lookup. -/
def GetIntConfigValue (st : ConfigStore) (key : String) (junk : Int) :
    Bool × Int :=
  match st.ints.lookup key with
  | some v => (true, v)
  | none => (false, junk)

/-- Modelled from the contract documented at
`IGCToCLR::GetStringConfigValue` (src/src/gc/gcinterface.ee.h, lines
204-205), same convention as the boolean lookup. -/
def GetStringConfigValue (st : ConfigStore) (key : String) (junk : String) :
    Bool × String :=
  match st.strs.lookup key with
  | some v => (true, v)
  | none => (false, junk)

/-- The resource events of the string-configuration discipline: a
successful `GetStringConfigValue` acquires string resource `id`, a
`FreeStringConfigValue` releases it; `missed` records an unsuccessful
lookup, which acquires nothing. -/
inductive StrEvent where
  | acquire (id : Nat)
  | release (id : Nat)
  | missed
deriving DecidableEq, Repr

/-- Modelled from the spec: the collector-side programs that consume
string configuration values (spec section 5: "any returned string
resource follows a scoped-acquisition contract — the caller must release
it through the matching free operation on every path, including error
paths"). `withString body` brackets `body` with a successful
`GetStringConfigValue` and the matching `FreeStringConfigValue`;
`err` is an error path that aborts the remainder of the enclosing
sequence. The collector's call sites are not part of the sources. -/
inductive HostProg where
  | skip
  | err
  | queryMiss
  | seq (p q : HostProg)
  | withString (body : HostProg)

/-- The result of running a `HostProg`: the emitted resource-event trace,
the next fresh string-resource id, and whether the program aborted via an
error path. -/
structure EmitResult where
  trace : List StrEvent
  next : Nat
  aborted : Bool
deriving DecidableEq, Repr

/-- Modelled from the spec: running a collector-side program. Each
successful string query acquires a fresh resource id; the enclosing scope
releases it on the way out on every path, including when the body aborted
through an error path. An aborted first component of a sequence skips the
second. -/
def emitHost : HostProg → Nat → EmitResult
  | .skip, n => ⟨[], n, false⟩
  | .err, n => ⟨[], n, true⟩
  | .queryMiss, n => ⟨[.missed], n, false⟩
  | .seq p q, n =>
      if (emitHost p n).aborted = true then emitHost p n
      else
        ⟨(emitHost p n).trace ++ (emitHost q (emitHost p n).next).trace,
         (emitHost q (emitHost p n).next).next,
         (emitHost q (emitHost p n).next).aborted⟩
  | .withString body, n =>
      ⟨.acquire n :: ((emitHost body (n + 1)).trace ++ [.release n]),
       (emitHost body (n + 1)).next,
       (emitHost body (n + 1)).aborted⟩

/-- The events of a trace that concern string resource `id`. -/
def idEvents (id : Nat) (tr : List StrEvent) : List StrEvent :=
  tr.filter fun e =>
    match e with
    | .acquire j => j == id
    | .release j => j == id
    | .missed => false

/-- Modelled from the spec: the diagnostics observer (spec section 4.5).
Each hook of `IGCToCLR` (DiagGCStart, DiagUpdateGenerationBounds,
DiagGCEnd, DiagWalkFReachableObjects, DiagWalkSurvivors,
DiagWalkLOHSurvivors, DiagWalkBGCSurvivors;
src/src/gc/gcinterface.ee.h, lines 120-149) may observe the heap and its
arguments and produce diagnostics output only. -/
structure DiagSink where
  diagGCStart : Nat → Bool → List Nat → List String
  diagUpdateGenerationBounds : List Nat → List String
  diagGCEnd : Nat → Nat → Bool → List Nat → List String
  diagWalkFReachableObjects : List Nat → List String
  diagWalkSurvivors : List Nat → List String
  diagWalkLOHSurvivors : List Nat → List String
  diagWalkBGCSurvivors : List Nat → List String

/-- The no-op host observer: every diagnostic hook produces nothing. -/
def noopSink : DiagSink :=
  { diagGCStart := fun _ _ _ => []
    diagUpdateGenerationBounds := fun _ => []
    diagGCEnd := fun _ _ _ _ => []
    diagWalkFReachableObjects := fun _ => []
    diagWalkSurvivors := fun _ => []
    diagWalkLOHSurvivors := fun _ => []
    diagWalkBGCSurvivors := fun _ => [] }

/-- Modelled from the spec: the collector's own tracing work, which is out
of scope of the contract (spec section 1); any heap transformation that
does not consult the diagnostics observer represents it. The heap is a
list of object generations; objects of generation ≤ condemned that are
garbage here are represented as collected. -/
def collectCore (condemned : Nat) (heap : List Nat) : List Nat :=
  heap.filter fun g => decide (condemned < g)

/-- Modelled from the spec: one collection with its diagnostic hook
invocations in protocol order (spec section 4.5: before root scanning,
when generation bounds change, during each survivor-walk phase, at
collection end). Returns the resulting heap and the concatenated
diagnostics output. -/
def runCollection (d : DiagSink) (condemned : Nat) (isInduced : Bool)
    (heap : List Nat) : List Nat × List String :=
  let m1 := d.diagGCStart condemned isInduced heap
  let heap2 := collectCore condemned heap
  let m2 := d.diagUpdateGenerationBounds heap2
  let m3 := d.diagWalkFReachableObjects heap2
  let m4 := d.diagWalkSurvivors heap2
  let m5 := d.diagWalkLOHSurvivors heap2
  let m6 := d.diagWalkBGCSurvivors heap2
  let m7 := d.diagGCEnd condemned condemned isInduced heap2
  (heap2, m1 ++ m2 ++ m3 ++ m4 ++ m5 ++ m6 ++ m7)

/-- Modelled from the contracts documented at `IGCToCLR::GetThread` and
`IGCToCLR::CreateThread` (src/src/gc/gcinterface.ee.h, lines 80-86 and
104-118): what the runtime records about a thread — whether the GC
created it, whether it was created suspendable from the runtime's
perspective, and the associated VM Thread instance, if any. -/
structure ThreadRecord where
  createdByGC : Bool
  is_suspendable : Bool
  vmThread : Option Nat
deriving DecidableEq, Repr

/-- Modelled from the contract documented at `IGCToCLR::CreateThread`
(src/src/gc/gcinterface.ee.h, lines 104-118): threads the GC creates as
suspendable have a VM Thread object associated with them; threads not
created as suspendable have none. -/
def mkGCThreadRecord (is_suspendable : Bool) (tid : Nat) : ThreadRecord :=
  { createdByGC := true
    is_suspendable := is_suspendable
    vmThread := if is_suspendable then some tid else none }

/-- Modelled from the contract documented at `IGCToCLR::GetThread`
(src/src/gc/gcinterface.ee.h, lines 80-86): returns the Thread instance
associated with the thread, or null if none is associated. -/
def GetThread (r : ThreadRecord) : Option Nat := r.vmThread

/-- A concrete host eager-finalization policy for witnesses: even-numbered
objects are finalized eagerly. -/
def sampleEF : ObjRef → Bool := fun o => o % 2 == 0

/-- A concrete configuration backing store for witnesses. -/
def sampleConfig : ConfigStore :=
  { bools := [("gcServer", true)]
    ints := [("gcHeapCount", 4)]
    strs := [("gcLogFile", "gc.log")] }

/-- A concrete host-created thread record (no VM Thread instance) for
witnesses. -/
def hostThreadRecord : ThreadRecord :=
  { createdByGC := false, is_suspendable := true, vmThread := none }

theorem runEvents_cons (s : EEState) (e : EEEvent) (tr : List EEEvent) :
    runEvents s (e :: tr) = (execEvent s e).bind fun s2 => runEvents s2 tr := by
  cases h : execEvent s e <;> simp [runEvents, h]

theorem runEvents_append (l1 l2 : List EEEvent) (s : EEState) :
    runEvents s (l1 ++ l2) = (runEvents s l1).bind fun s2 => runEvents s2 l2 := by
  induction l1 generalizing s with
  | nil => rfl
  | cons e tl ih =>
      cases h : execEvent s e with
      | none => simp [runEvents, h]
      | some s2 => simp [runEvents, h, ih]

theorem alternates_of_runEvents (tr : List EEEvent) (s s2 : EEState)
    (h : runEvents s tr = some s2) :
    alternates (!s.suspEE) (suspendRestartTrace tr) = true := by
  induction tr generalizing s with
  | nil => rfl
  | cons e tl ih =>
      rw [runEvents_cons] at h
      cases e with
      | SuspendEE reason =>
          by_cases hc : s.alive = true ∧ s.suspEE = false
          · rw [execEvent, if_pos hc] at h
            simp only [Option.some_bind] at h
            have := ih _ h
            simp only [suspendRestartTrace, alternates, hc.2]
            simpa using this
          · rw [execEvent, if_neg hc] at h
            simp at h
      | RestartEE bFinishedGC =>
          by_cases hc : s.alive = true ∧ s.suspEE = true
          · rw [execEvent, if_pos hc] at h
            simp only [Option.some_bind] at h
            have := ih _ h
            simp only [suspendRestartTrace, alternates, hc.2]
            simpa using this
          · rw [execEvent, if_neg hc] at h
            simp at h
      | GcScanRoots condemned max_gen =>
          by_cases hc : s.alive = true ∧ s.suspEE = true
          · rw [execEvent, if_pos hc] at h
            simp only [Option.some_bind] at h
            simpa [suspendRestartTrace] using ih _ h
          · rw [execEvent, if_neg hc] at h
            simp at h
      | StompWriteBarrier args =>
          by_cases hc : s.alive = true ∧ s.suspEE = true
          · rw [execEvent, if_pos hc] at h
            simp only [Option.some_bind] at h
            simpa [suspendRestartTrace] using ih _ h
          · rw [execEvent, if_neg hc] at h
            simp at h
      | RefStore used =>
          by_cases hc : s.alive = true ∧ s.suspEE = false ∧ used = s.barrier
          · rw [execEvent, if_pos hc] at h
            simp only [Option.some_bind] at h
            simpa [suspendRestartTrace] using ih _ h
          · rw [execEvent, if_neg hc] at h
            simp at h
      | HandleFatalError exitCode =>
          by_cases hc : s.alive = true
          · rw [execEvent, if_pos hc] at h
            simp only [Option.some_bind] at h
            simpa [suspendRestartTrace] using ih _ h
          · rw [execEvent, if_neg hc] at h
            simp at h

theorem count_balance_of_runEvents (tr : List EEEvent) (s s2 : EEState)
    (h : runEvents s tr = some s2) :
    countSuspends tr + (cond s.suspEE 1 0) =
      countRestarts tr + (cond s2.suspEE 1 0) := by
  induction tr generalizing s with
  | nil =>
      simp only [runEvents, Option.some.injEq] at h
      subst h; rfl
  | cons e tl ih =>
      rw [runEvents_cons] at h
      cases e with
      | SuspendEE reason =>
          by_cases hc : s.alive = true ∧ s.suspEE = false
          · rw [execEvent, if_pos hc] at h
            simp only [Option.some_bind] at h
            have := ih _ h
            simp only [countSuspends, countRestarts, hc.2, cond_true, cond_false] at *
            omega
          · rw [execEvent, if_neg hc] at h
            simp at h
      | RestartEE bFinishedGC =>
          by_cases hc : s.alive = true ∧ s.suspEE = true
          · rw [execEvent, if_pos hc] at h
            simp only [Option.some_bind] at h
            have := ih _ h
            simp only [countSuspends, countRestarts, hc.2, cond_true, cond_false] at *
            omega
          · rw [execEvent, if_neg hc] at h
            simp at h
      | GcScanRoots condemned max_gen =>
          by_cases hc : s.alive = true ∧ s.suspEE = true
          · rw [execEvent, if_pos hc] at h
            simp only [Option.some_bind] at h
            simpa [countSuspends, countRestarts] using ih _ h
          · rw [execEvent, if_neg hc] at h
            simp at h
      | StompWriteBarrier args =>
          by_cases hc : s.alive = true ∧ s.suspEE = true
          · rw [execEvent, if_pos hc] at h
            simp only [Option.some_bind] at h
            simpa [countSuspends, countRestarts] using ih _ h
          · rw [execEvent, if_neg hc] at h
            simp at h
      | RefStore used =>
          by_cases hc : s.alive = true ∧ s.suspEE = false ∧ used = s.barrier
          · rw [execEvent, if_pos hc] at h
            simp only [Option.some_bind] at h
            simpa [countSuspends, countRestarts] using ih _ h
          · rw [execEvent, if_neg hc] at h
            simp at h
      | HandleFatalError exitCode =>
          by_cases hc : s.alive = true
          · rw [execEvent, if_pos hc] at h
            simp only [Option.some_bind] at h
            simpa [countSuspends, countRestarts] using ih _ h
          · rw [execEvent, if_neg hc] at h
            simp at h

/-- C1: in every protocol execution, `SuspendEE` and `RestartEE` strictly
alternate starting with `SuspendEE` (so every `SuspendEE` is matched by
exactly one `RestartEE` before the next `SuspendEE`); on every prefix the
number of completed suspensions exceeds the number of resumptions by at
most one, so no two suspensions are ever concurrently active; and a second
`SuspendEE` issued while already suspended is rejected as outside the
protocol. -/
theorem suspendEE_restartEE_paired (tr : List EEEvent) (s2 : EEState)
    (h : runEvents initEEState tr = some s2) :
    alternates true (suspendRestartTrace tr) = true ∧
    (∀ pre suf : List EEEvent, tr = pre ++ suf →
      countRestarts pre ≤ countSuspends pre ∧
      countSuspends pre ≤ countRestarts pre + 1) ∧
    (∀ (s : EEState) (reason : Nat), s.suspEE = true →
      execEvent s (EEEvent.SuspendEE reason) = none) := by
  refine ⟨?_, ?_, ?_⟩
  · simpa [initEEState] using alternates_of_runEvents tr initEEState s2 h
  · intro pre suf heq
    subst heq
    rw [runEvents_append] at h
    cases h3 : runEvents initEEState pre with
    | none => rw [h3] at h; simp at h
    | some s3 =>
        have hb := count_balance_of_runEvents pre initEEState s3 h3
        simp only [initEEState] at hb
        cases hs3 : s3.suspEE <;> rw [hs3] at hb <;> simp at hb <;> omega
  · intro s reason hs
    simp [execEvent, hs]

/-- C1 witness: a concrete execution with two properly paired
suspend/resume cycles. -/
theorem suspendEE_restartEE_paired_witness :
    runEvents initEEState
        [EEEvent.SuspendEE 1, EEEvent.GcScanRoots 0 2, EEEvent.RestartEE true,
         EEEvent.SuspendEE 2, EEEvent.RestartEE false] = some initEEState ∧
    (alternates true (suspendRestartTrace
        [EEEvent.SuspendEE 1, EEEvent.GcScanRoots 0 2, EEEvent.RestartEE true,
         EEEvent.SuspendEE 2, EEEvent.RestartEE false]) = true ∧
     (∀ pre suf : List EEEvent,
        [EEEvent.SuspendEE 1, EEEvent.GcScanRoots 0 2, EEEvent.RestartEE true,
         EEEvent.SuspendEE 2, EEEvent.RestartEE false] = pre ++ suf →
        countRestarts pre ≤ countSuspends pre ∧
        countSuspends pre ≤ countRestarts pre + 1) ∧
     (∀ (s : EEState) (reason : Nat), s.suspEE = true →
        execEvent s (EEEvent.SuspendEE reason) = none)) :=
  ⟨by decide,
   suspendEE_restartEE_paired
     [EEEvent.SuspendEE 1, EEEvent.GcScanRoots 0 2, EEEvent.RestartEE true,
      EEEvent.SuspendEE 2, EEEvent.RestartEE false] initEEState (by decide)⟩

theorem barrier_stable_of_no_stomp (tr : List EEEvent) (s s2 : EEState)
    (h : runEvents s tr = some s2)
    (hn : ∀ p, EEEvent.StompWriteBarrier p ∉ tr) : s2.barrier = s.barrier := by
  induction tr generalizing s with
  | nil =>
      simp only [runEvents, Option.some.injEq] at h
      subst h; rfl
  | cons e tl ih =>
      rw [runEvents_cons] at h
      have hn2 : ∀ p, EEEvent.StompWriteBarrier p ∉ tl := by
        intro p hp
        exact hn p (List.mem_cons_of_mem _ hp)
      cases e with
      | SuspendEE reason =>
          by_cases hc : s.alive = true ∧ s.suspEE = false
          · rw [execEvent, if_pos hc] at h
            simp only [Option.some_bind] at h
            exact ih { s with suspEE := true } h hn2
          · rw [execEvent, if_neg hc] at h
            simp at h
      | RestartEE bFinishedGC =>
          by_cases hc : s.alive = true ∧ s.suspEE = true
          · rw [execEvent, if_pos hc] at h
            simp only [Option.some_bind] at h
            exact ih { s with suspEE := false } h hn2
          · rw [execEvent, if_neg hc] at h
            simp at h
      | GcScanRoots condemned max_gen =>
          by_cases hc : s.alive = true ∧ s.suspEE = true
          · rw [execEvent, if_pos hc] at h
            simp only [Option.some_bind] at h
            exact ih _ h hn2
          · rw [execEvent, if_neg hc] at h
            simp at h
      | StompWriteBarrier args =>
          exact absurd (List.mem_cons_self _ _) (hn args)
      | RefStore used =>
          by_cases hc : s.alive = true ∧ s.suspEE = false ∧ used = s.barrier
          · rw [execEvent, if_pos hc] at h
            simp only [Option.some_bind] at h
            exact ih _ h hn2
          · rw [execEvent, if_neg hc] at h
            simp at h
      | HandleFatalError exitCode =>
          by_cases hc : s.alive = true
          · rw [execEvent, if_pos hc] at h
            simp only [Option.some_bind] at h
            exact ih { s with alive := false } h hn2
          · rw [execEvent, if_neg hc] at h
            simp at h

theorem runEvents_of_not_alive (tr : List EEEvent) (s s2 : EEState)
    (h : runEvents s tr = some s2) (ha : s.alive = false) : tr = [] := by
  cases tr with
  | nil => rfl
  | cons e tl =>
      exfalso
      rw [runEvents_cons] at h
      cases e <;> simp [execEvent, ha] at h

/-- C3: write-barrier installation is atomic with respect to resumption:
in any protocol execution in which `StompWriteBarrier p` is followed
(after an intervening `RestartEE` and with no further stomp in between)
by a reference store, that store uses exactly the parameters `p` — no
mutator ever observes stale or partially updated barrier parameters, the
installed parameter record being a single atomic state component. -/
theorem stompWriteBarrier_atomic (pre mid post : List EEEvent)
    (p q : WriteBarrierParameters) (b : Bool) (s2 : EEState)
    (hrun : runEvents initEEState
        (pre ++ EEEvent.StompWriteBarrier p ::
          (mid ++ EEEvent.RefStore q :: post)) = some s2)
    (_hres : EEEvent.RestartEE b ∈ mid)
    (hnostomp : ∀ r, EEEvent.StompWriteBarrier r ∉ mid) :
    q = p := by
  rw [runEvents_append] at hrun
  cases h3 : runEvents initEEState pre with
  | none => rw [h3] at hrun; simp at hrun
  | some s3 =>
      rw [h3] at hrun
      simp only [Option.some_bind] at hrun
      rw [runEvents_cons] at hrun
      by_cases hc : s3.alive = true ∧ s3.suspEE = true
      · rw [execEvent, if_pos hc] at hrun
        simp only [Option.some_bind] at hrun
        rw [runEvents_append] at hrun
        cases h5 : runEvents { s3 with barrier := p } mid with
        | none => rw [h5] at hrun; simp at hrun
        | some s5 =>
            rw [h5] at hrun
            simp only [Option.some_bind] at hrun
            have hb : s5.barrier = p :=
              barrier_stable_of_no_stomp mid _ s5 h5 hnostomp
            rw [runEvents_cons] at hrun
            by_cases hc2 : s5.alive = true ∧ s5.suspEE = false ∧ q = s5.barrier
            · exact hc2.2.2.trans hb
            · rw [execEvent, if_neg hc2] at hrun
              simp at hrun
      · rw [execEvent, if_neg hc] at hrun
        simp at hrun

/-- C3 witness: a concrete execution that stomps the barrier while
suspended, resumes, and performs a store with the freshly installed
parameters. -/
theorem stompWriteBarrier_atomic_witness :
    runEvents initEEState
        [EEEvent.SuspendEE 1,
         EEEvent.StompWriteBarrier ⟨1, 2, 3, 4⟩,
         EEEvent.RestartEE true,
         EEEvent.RefStore ⟨1, 2, 3, 4⟩] =
      some { alive := true, suspEE := false, barrier := ⟨1, 2, 3, 4⟩ } ∧
    EEEvent.RestartEE true ∈ [EEEvent.RestartEE true] ∧
    (∀ r, EEEvent.StompWriteBarrier r ∉ [EEEvent.RestartEE true]) ∧
    (⟨1, 2, 3, 4⟩ : WriteBarrierParameters) = ⟨1, 2, 3, 4⟩ :=
  ⟨by decide, by simp, by intro r hr; simp at hr,
   stompWriteBarrier_atomic [EEEvent.SuspendEE 1] [EEEvent.RestartEE true] []
     ⟨1, 2, 3, 4⟩ ⟨1, 2, 3, 4⟩ true
     { alive := true, suspEE := false, barrier := ⟨1, 2, 3, 4⟩ }
     (by decide) (by simp) (by intro r hr; simp at hr)⟩

/-- C6: fatal-error escalation is terminal: in any protocol execution
containing `HandleFatalError`, no further protocol operation of any kind
follows it — the trace after the escalation is empty. -/
theorem handleFatalError_terminal (pre post : List EEEvent) (c : Nat)
    (s2 : EEState)
    (h : runEvents initEEState
        (pre ++ EEEvent.HandleFatalError c :: post) = some s2) :
    post = [] := by
  rw [runEvents_append] at h
  cases h3 : runEvents initEEState pre with
  | none => rw [h3] at h; simp at h
  | some s3 =>
      rw [h3] at h
      simp only [Option.some_bind] at h
      rw [runEvents_cons] at h
      by_cases hc : s3.alive = true
      · rw [execEvent, if_pos hc] at h
        simp only [Option.some_bind] at h
        exact runEvents_of_not_alive post _ s2 h rfl
      · rw [execEvent, if_neg hc] at h
        simp at h

/-- C6 witness: fatal-error escalation with exit code 137 at the end of a
concrete execution. -/
theorem handleFatalError_terminal_witness :
    runEvents initEEState
        [EEEvent.SuspendEE 1, EEEvent.HandleFatalError 137] =
      some { alive := false, suspEE := true, barrier := initBarrier } ∧
    ([] : List EEEvent) = [] :=
  ⟨by decide,
   handleFatalError_terminal [EEEvent.SuspendEE 1] [] 137
     { alive := false, suspEE := true, barrier := initBarrier } (by decide)⟩

/-- C2: the root scan invokes the promotion callback on every stack and
static root of generation ≤ condemned (completeness); when the host's
root locations are distinct, no location is reported twice within the
scan (exactly-once); and the protocol permits `GcScanRoots` only while
suspended. -/
theorem gcScanRoots_complete_exactly_once (condemned : Nat)
    (roots : List GCRoot) (hdistinct : (roots.map GCRoot.loc).Nodup) :
    (∀ r ∈ roots, r.gen ≤ condemned →
      r.loc ∈ gcScanRootsVisited condemned roots) ∧
    (gcScanRootsVisited condemned roots).Nodup ∧
    (∀ (s : EEState) (cd mg : Nat),
      execEvent s (EEEvent.GcScanRoots cd mg) ≠ none → s.suspEE = true) := by
  refine ⟨?_, ?_, ?_⟩
  · intro r hr hg
    simp only [gcScanRootsVisited, List.mem_map, List.mem_filter]
    exact ⟨r, ⟨hr, by simpa using hg⟩, rfl⟩
  · exact List.Nodup.sublist
      (List.Sublist.map GCRoot.loc (List.filter_sublist roots)) hdistinct
  · intro s cd mg hne
    by_cases hc : s.alive = true ∧ s.suspEE = true
    · exact hc.2
    · exact absurd (by rw [execEvent, if_neg hc]) hne

/-- C2 witness: a concrete root set with distinct locations, condemned
generation 1. -/
theorem gcScanRoots_complete_exactly_once_witness :
    ([⟨10, 0, RootKind.stack⟩, ⟨11, 1, RootKind.static⟩,
      ⟨12, 2, RootKind.stack⟩].map GCRoot.loc).Nodup ∧
    ((∀ r ∈ [(⟨10, 0, RootKind.stack⟩ : GCRoot), ⟨11, 1, RootKind.static⟩,
        ⟨12, 2, RootKind.stack⟩], r.gen ≤ 1 →
      r.loc ∈ gcScanRootsVisited 1
        [⟨10, 0, RootKind.stack⟩, ⟨11, 1, RootKind.static⟩,
         ⟨12, 2, RootKind.stack⟩]) ∧
     (gcScanRootsVisited 1
        [⟨10, 0, RootKind.stack⟩, ⟨11, 1, RootKind.static⟩,
         ⟨12, 2, RootKind.stack⟩]).Nodup ∧
     (∀ (s : EEState) (cd mg : Nat),
        execEvent s (EEEvent.GcScanRoots cd mg) ≠ none → s.suspEE = true)) :=
  ⟨by decide,
   gcScanRoots_complete_exactly_once 1
     [⟨10, 0, RootKind.stack⟩, ⟨11, 1, RootKind.static⟩,
      ⟨12, 2, RootKind.stack⟩] (by decide)⟩

/-- C4 counterexample: on the scenario heap — wrapper 0 pins object 1
directly and the array 2 with elements 3, 4, 5 — the walk does not yield
the pairs (wrapper, A), (wrapper, B0), (wrapper, B1), (wrapper, B2) in any
order: per the documented contract the "from" object for array elements
is the pinned array, not the wrapper. -/
theorem walkAsyncPinned_wrapper_pairs_refuted :
    ¬ (WalkAsyncPinned sampleKindOf 0).Perm
        [(0, 1), (0, 3), (0, 4), (0, 5)] := by
  decide

/-- C4 (amended): on a wrapper pinning a single object `a` directly and
an array `arr` with elements `b0, b1, b2`, the walk invokes the callback
exactly once each on (wrapper, a), (arr, b0), (arr, b1), (arr, b2) — the
"from" object for array elements being the pinned array — and both walks
invoke zero callbacks on any object that is not of the recognized wrapper
kind. -/
theorem walkAsyncPinned_scenario :
    (∀ (kindOf : ObjRef → ObjKind) (w a arr b0 b1 b2 : ObjRef),
        kindOf w = ObjKind.overlappedData
            [PinnedEntry.direct a, PinnedEntry.array arr [b0, b1, b2]] →
        WalkAsyncPinned kindOf w = [(w, a), (arr, b0), (arr, b1), (arr, b2)]) ∧
    (∀ (kindOf : ObjRef → ObjKind) (o : ObjRef), kindOf o = ObjKind.plain →
        WalkAsyncPinned kindOf o = [] ∧
        WalkAsyncPinnedForPromotion kindOf o = []) := by
  constructor
  · intro kindOf w a arr b0 b1 b2 hw
    simp [WalkAsyncPinned, hw]
  · intro kindOf o ho
    constructor
    · simp [WalkAsyncPinned, ho]
    · simp [WalkAsyncPinnedForPromotion, ho]

/-- C4 witness: the amended pairs on the concrete scenario heap, and the
no-op behavior on the plain object 7. -/
theorem walkAsyncPinned_scenario_witness :
    sampleKindOf 0 = ObjKind.overlappedData
        [PinnedEntry.direct 1, PinnedEntry.array 2 [3, 4, 5]] ∧
    WalkAsyncPinned sampleKindOf 0 = [(0, 1), (2, 3), (2, 4), (2, 5)] ∧
    sampleKindOf 7 = ObjKind.plain ∧
    (WalkAsyncPinned sampleKindOf 7 = [] ∧
     WalkAsyncPinnedForPromotion sampleKindOf 7 = []) :=
  ⟨by decide,
   walkAsyncPinned_scenario.1 sampleKindOf 0 1 2 3 4 5 (by decide),
   by decide,
   walkAsyncPinned_scenario.2 sampleKindOf 7 (by decide)⟩

/-- C5: eager finalization is exclusive: an object the host reports as
eagerly finalized is not enqueued for the finalizer thread, an object the
host declines is not eagerly finalized but remains the collector's
responsibility, and every finalizable object goes down exactly one of the
two paths. -/
theorem eagerFinalized_exclusive (ef : ObjRef → Bool) (objs : List ObjRef)
    (o : ObjRef) :
    (ef o = true → o ∉ (processFinalizables ef objs).2) ∧
    (ef o = false → o ∉ (processFinalizables ef objs).1) ∧
    (o ∈ objs →
      (o ∈ (processFinalizables ef objs).1 ∧
       o ∉ (processFinalizables ef objs).2) ∨
      (o ∈ (processFinalizables ef objs).2 ∧
       o ∉ (processFinalizables ef objs).1)) := by
  refine ⟨?_, ?_, ?_⟩
  · intro h
    simp [processFinalizables, List.mem_filter, h]
  · intro h
    simp [processFinalizables, List.mem_filter, h]
  · intro hmem
    cases hef : ef o with
    | true =>
        left
        simp [processFinalizables, List.mem_filter, hef, hmem]
    | false =>
        right
        simp [processFinalizables, List.mem_filter, hef, hmem]

/-- C5 witness: with the sample policy, object 2 is eagerly finalized and
not enqueued; object 1 is enqueued and not eagerly finalized. -/
theorem eagerFinalized_exclusive_witness :
    sampleEF 2 = true ∧ sampleEF 1 = false ∧ 2 ∈ [0, 1, 2] ∧
    2 ∉ (processFinalizables sampleEF [0, 1, 2]).2 ∧
    1 ∉ (processFinalizables sampleEF [0, 1, 2]).1 ∧
    ((2 ∈ (processFinalizables sampleEF [0, 1, 2]).1 ∧
      2 ∉ (processFinalizables sampleEF [0, 1, 2]).2) ∨
     (2 ∈ (processFinalizables sampleEF [0, 1, 2]).2 ∧
      2 ∉ (processFinalizables sampleEF [0, 1, 2]).1)) :=
  ⟨rfl, rfl, by decide,
   (eagerFinalized_exclusive sampleEF [0, 1, 2] 2).1 rfl,
   (eagerFinalized_exclusive sampleEF [0, 1, 2] 1).2.1 rfl,
   (eagerFinalized_exclusive sampleEF [0, 1, 2] 2).2.2 (by decide)⟩

/-- C7: each typed configuration lookup returns false exactly when the
host's backing store has no value for the key — the out-parameter then
holding nothing meaningful — and returns true with the stored value
written to the out-parameter otherwise; a missing key is signaled by the
boolean result alone, never by a fault. -/
theorem getConfigValue_miss_signaled (st : ConfigStore) (key : String)
    (jb : Bool) (ji : Int) (js : String) :
    ((GetBooleanConfigValue st key jb).1 = false ↔
      st.bools.lookup key = none) ∧
    (∀ v, st.bools.lookup key = some v →
      GetBooleanConfigValue st key jb = (true, v)) ∧
    ((GetIntConfigValue st key ji).1 = false ↔ st.ints.lookup key = none) ∧
    (∀ v, st.ints.lookup key = some v →
      GetIntConfigValue st key ji = (true, v)) ∧
    ((GetStringConfigValue st key js).1 = false ↔
      st.strs.lookup key = none) ∧
    (∀ v, st.strs.lookup key = some v →
      GetStringConfigValue st key js = (true, v)) := by
  refine ⟨?_, ?_, ?_, ?_, ?_, ?_⟩
  · cases h : st.bools.lookup key <;> simp [GetBooleanConfigValue, h]
  · intro v hv; simp [GetBooleanConfigValue, hv]
  · cases h : st.ints.lookup key <;> simp [GetIntConfigValue, h]
  · intro v hv; simp [GetIntConfigValue, hv]
  · cases h : st.strs.lookup key <;> simp [GetStringConfigValue, h]
  · intro v hv; simp [GetStringConfigValue, hv]

/-- C7 witness: present and missing keys on the concrete store, for each
of the three typed accessors. -/
theorem getConfigValue_miss_signaled_witness :
    sampleConfig.bools.lookup "gcServer" = some true ∧
    GetBooleanConfigValue sampleConfig "gcServer" false = (true, true) ∧
    sampleConfig.ints.lookup "gcHeapCount" = some 4 ∧
    GetIntConfigValue sampleConfig "gcHeapCount" 0 = (true, 4) ∧
    sampleConfig.strs.lookup "gcLogFile" = some "gc.log" ∧
    GetStringConfigValue sampleConfig "gcLogFile" "" = (true, "gc.log") ∧
    ((GetBooleanConfigValue sampleConfig "absent" false).1 = false ↔
      sampleConfig.bools.lookup "absent" = none) :=
  ⟨rfl,
   (getConfigValue_miss_signaled sampleConfig "gcServer" false 0 "").2.1
     true rfl,
   rfl,
   (getConfigValue_miss_signaled sampleConfig "gcHeapCount" false 0 "").2.2.2.1
     4 rfl,
   rfl,
   (getConfigValue_miss_signaled sampleConfig "gcLogFile" false 0 "").2.2.2.2.2
     "gc.log" rfl,
   (getConfigValue_miss_signaled sampleConfig "absent" false 0 "").1⟩

/-- C9: the diagnostic hooks are purely observational: running a
collection with any diagnostics observer produces exactly the heap that
the no-op observer produces, differing only in diagnostics output, and
the no-op observer produces no diagnostics output at all. -/
theorem diagHooks_observational (d : DiagSink) (condemned : Nat)
    (isInduced : Bool) (heap : List Nat) :
    (runCollection d condemned isInduced heap).1 =
      (runCollection noopSink condemned isInduced heap).1 ∧
    (runCollection noopSink condemned isInduced heap).2 = [] := by
  constructor
  · rfl
  · simp [runCollection, noopSink]

/-- C10: a thread the GC created with `is_suspendable = false` has no
associated Thread instance and `GetThread` returns null on it; `GetThread`
returns null on any thread without an associated Thread instance; and a
non-null result implies the thread was created suspendable (for GC-created
threads) and has a registered Thread instance. -/
theorem getThread_null_for_non_suspendable (tid : Nat) :
    GetThread (mkGCThreadRecord false tid) = none ∧
    (∀ r : ThreadRecord, r.vmThread = none → GetThread r = none) ∧
    (∀ (s : Bool) (tid2 t : Nat),
      GetThread (mkGCThreadRecord s tid2) = some t → s = true) ∧
    (∀ (r : ThreadRecord) (t : Nat),
      GetThread r = some t → r.vmThread = some t) := by
  refine ⟨rfl, ?_, ?_, ?_⟩
  · intro r h
    exact h
  · intro s tid2 t h
    cases s with
    | true => rfl
    | false => simp [GetThread, mkGCThreadRecord] at h
  · intro r t h
    exact h

/-- C10 witness: concrete GC-created suspendable and non-suspendable
threads and a host thread without a Thread instance. -/
theorem getThread_null_for_non_suspendable_witness :
    GetThread (mkGCThreadRecord false 7) = none ∧
    hostThreadRecord.vmThread = none ∧
    GetThread hostThreadRecord = none ∧
    GetThread (mkGCThreadRecord true 7) = some 7 ∧
    (true : Bool) = true :=
  ⟨(getThread_null_for_non_suspendable 7).1,
   rfl,
   (getThread_null_for_non_suspendable 7).2.1 hostThreadRecord rfl,
   rfl,
   (getThread_null_for_non_suspendable 7).2.2.1 true 7 7 rfl⟩

theorem idEvents_append (id : Nat) (a b : List StrEvent) :
    idEvents id (a ++ b) = idEvents id a ++ idEvents id b := by
  simp [idEvents]

theorem idEvents_cons_acquire (id n : Nat) (tr : List StrEvent) :
    idEvents id (StrEvent.acquire n :: tr) =
      if (n == id) = true then StrEvent.acquire n :: idEvents id tr
      else idEvents id tr := by
  simp only [idEvents, List.filter_cons]

theorem idEvents_cons_release (id n : Nat) (tr : List StrEvent) :
    idEvents id (StrEvent.release n :: tr) =
      if (n == id) = true then StrEvent.release n :: idEvents id tr
      else idEvents id tr := by
  simp only [idEvents, List.filter_cons]

theorem emitHost_le_next (p : HostProg) (n : Nat) :
    n ≤ (emitHost p n).next := by
  induction p generalizing n with
  | skip => exact Nat.le_refl n
  | err => exact Nat.le_refl n
  | queryMiss => exact Nat.le_refl n
  | seq p q ihp ihq =>
      simp only [emitHost]
      by_cases ha : (emitHost p n).aborted = true
      · rw [if_pos ha]
        exact ihp n
      · rw [if_neg ha]
        exact Nat.le_trans (ihp n) (ihq (emitHost p n).next)
  | withString body ih =>
      simp only [emitHost]
      exact Nat.le_trans (Nat.le_succ n) (ih (n + 1))

theorem idEvents_emitHost_lt (p : HostProg) (n id : Nat) (h : id < n) :
    idEvents id (emitHost p n).trace = [] := by
  induction p generalizing n with
  | skip => rfl
  | err => rfl
  | queryMiss => rfl
  | seq p q ihp ihq =>
      simp only [emitHost]
      by_cases ha : (emitHost p n).aborted = true
      · rw [if_pos ha]
        exact ihp n h
      · rw [if_neg ha]
        rw [idEvents_append, ihp n h,
            ihq (emitHost p n).next
              (Nat.lt_of_lt_of_le h (emitHost_le_next p n))]
        rfl
  | withString body ih =>
      simp only [emitHost]
      have hne : ¬ (n == id) = true := by simp; omega
      rw [idEvents_cons_acquire, if_neg hne, idEvents_append,
          ih (n + 1) (Nat.lt_succ_of_lt h),
          idEvents_cons_release, if_neg hne]
      rfl

theorem idEvents_emitHost_ge (p : HostProg) (n id : Nat)
    (h : (emitHost p n).next ≤ id) :
    idEvents id (emitHost p n).trace = [] := by
  induction p generalizing n with
  | skip => rfl
  | err => rfl
  | queryMiss => rfl
  | seq p q ihp ihq =>
      simp only [emitHost] at h ⊢
      by_cases ha : (emitHost p n).aborted = true
      · rw [if_pos ha] at h ⊢
        exact ihp n h
      · rw [if_neg ha] at h ⊢
        have h2 : (emitHost q (emitHost p n).next).next ≤ id := h
        rw [idEvents_append, ihq (emitHost p n).next h2,
            ihp n (Nat.le_trans (emitHost_le_next q (emitHost p n).next) h2)]
        rfl
  | withString body ih =>
      simp only [emitHost] at h ⊢
      have h2 : (emitHost body (n + 1)).next ≤ id := h
      have h3 : n + 1 ≤ id :=
        Nat.le_trans (emitHost_le_next body (n + 1)) h2
      have hne : ¬ (n == id) = true := by simp; omega
      rw [idEvents_cons_acquire, if_neg hne, idEvents_append,
          ih (n + 1) h2, idEvents_cons_release, if_neg hne]
      rfl

/-- C8: the scoped-acquisition discipline for string configuration
values: in the trace of any collector-side program — across sequencing,
unsuccessful lookups and error paths alike — the events concerning any
single string resource are either absent entirely or exactly one
acquisition (a successful `GetStringConfigValue`) followed by exactly one
matching release (`FreeStringConfigValue`): no leak and no double
release. -/
theorem stringConfigValue_scoped (p : HostProg) (n id : Nat) :
    idEvents id (emitHost p n).trace = [] ∨
    idEvents id (emitHost p n).trace =
      [StrEvent.acquire id, StrEvent.release id] := by
  induction p generalizing n with
  | skip => left; rfl
  | err => left; rfl
  | queryMiss => left; rfl
  | seq p q ihp ihq =>
      simp only [emitHost]
      by_cases ha : (emitHost p n).aborted = true
      · rw [if_pos ha]
        exact ihp n
      · rw [if_neg ha]
        rw [idEvents_append]
        cases ihp n with
        | inl h1 =>
            rw [h1]
            simpa using ihq (emitHost p n).next
        | inr h1 =>
            rw [h1]
            have h2 : idEvents id (emitHost q (emitHost p n).next).trace
                = [] := by
              by_cases hle : (emitHost p n).next ≤ id
              · exfalso
                rw [idEvents_emitHost_ge p n id hle] at h1
                exact List.noConfusion h1
              · exact idEvents_emitHost_lt q (emitHost p n).next id
                  (Nat.lt_of_not_le hle)
            rw [h2]
            right
            rfl
  | withString body ih =>
      simp only [emitHost]
      by_cases hid : (n == id) = true
      · have hn : n = id := by simpa using hid
        subst hn
        right
        have hb : idEvents n (emitHost body (n + 1)).trace = [] :=
          idEvents_emitHost_lt body (n + 1) n (Nat.lt_succ_self n)
        rw [idEvents_cons_acquire, if_pos hid, idEvents_append, hb,
            idEvents_cons_release, if_pos hid]
        rfl
      · rw [idEvents_cons_acquire, if_neg hid, idEvents_append,
            idEvents_cons_release, if_neg hid]
        cases ih (n + 1) with
        | inl h1 => left; rw [h1]; rfl
        | inr h1 => right; rw [h1]; rfl

end GCInterface
